import Mathlib

/-
Verification development for the notebook
"Part 5 - Inference and Validation (Exercises).ipynb".

The notebook defines a 4-layer feed-forward classifier (784-256-128-64-10,
ReLU between layers, log_softmax on the output), a variant with
nn.Dropout(0.2) after each of the first three activations, and two
train/validate loops (one per variant).  Tensors are embedded as lists of
real numbers; the framework-supplied pieces the notebook calls
(nn.Linear, F.relu, F.log_softmax, nn.Dropout, nn.NLLLoss, Tensor.topk)
are embedded by their documented semantics; gradient computation and the
Adam update step are external collaborators and are abstracted as an
update function on the parameters.
-/

namespace Part5

/-- Python's `for ... else` over a list: the body returns the next state and
a break flag; the `else` continuation runs only when the list is exhausted
without a break. -/
def forElse {σ α : Type _} (body : σ → α → σ × Bool) (els : σ → σ) :
    List α → σ → σ
  | [], s => els s
  | x :: t, s =>
    if (body s x).2 then (body s x).1 else forElse body els t (body s x).1

/-- Observable events of one epoch of a train/validate loop, in program
order: mode switches, one event per processed batch, and the epoch report. -/
inductive Ev where
  | setTrain
  | setEval
  | trainBatch
  | valBatch
  | report
  deriving DecidableEq

/-- Event trace of one epoch of the baseline loop (notebook cell 13): the
epoch body zeroes `running_loss`, iterates the training batches, and in the
trailing `else` runs the validation batches and reports.  No
`model.train()` / `model.eval()` statement occurs anywhere in this cell. -/
def baselineEpochTrace {α β : Type _} (train : List α) (val : List β) : List Ev :=
  forElse (fun tr _ => (tr ++ [Ev.trainBatch], false))
    (fun tr =>
      forElse (fun tr2 _ => (tr2 ++ [Ev.valBatch], false))
        (fun tr2 => tr2 ++ [Ev.report]) val tr)
    train []

/-- Event trace of one epoch of the dropout-variant loop (cell 18): the
epoch body starts with `model.train()`, iterates the training batches, and
in the trailing `else` first calls `model.eval()`, then runs the validation
batches and reports. -/
def dropoutEpochTrace {α β : Type _} (train : List α) (val : List β) : List Ev :=
  forElse (fun tr _ => (tr ++ [Ev.trainBatch], false))
    (fun tr =>
      forElse (fun tr2 _ => (tr2 ++ [Ev.valBatch], false))
        (fun tr2 => tr2 ++ [Ev.report]) val (tr ++ [Ev.setEval]))
    train [Ev.setTrain]

noncomputable section

/-- A vector of real entries (one row of a tensor). -/
abbrev Vec := List ℝ

/-- A matrix: a batch of rows. -/
abbrev Mat := List Vec

/-- Dot product of two vectors (truncating to the shorter one). -/
def dot (v w : Vec) : ℝ := (List.zipWith (· * ·) v w).sum

/-- `nn.Linear`: an affine map given by a weight matrix (one row per output
unit) and a bias vector. -/
def affine (W : Mat) (b : Vec) (x : Vec) : Vec :=
  List.zipWith (fun wr bi => dot wr x + bi) W b

/-- `F.relu` applied elementwise: clip negative entries to zero. -/
def reluV (v : Vec) : Vec := v.map (fun t => max t 0)

/-- `F.log_softmax(z, dim=1)` on one row:
`z_j - log (sum_k exp z_k)`. -/
def logSoftmax (z : Vec) : Vec :=
  z.map (fun zj => zj - Real.log ((z.map Real.exp).sum))

/-- The parameters of the classifier: weights and biases of the four
`nn.Linear` layers `fc1 .. fc4`. -/
structure Params where
  w1 : Mat
  b1 : Vec
  w2 : Mat
  b2 : Vec
  w3 : Mat
  b3 : Vec
  w4 : Mat
  b4 : Vec

/-- One row of the baseline `Classifier.forward` (cell 2): three
ReLU-activated affine layers followed by an affine layer and log_softmax. -/
def classifierRow (m : Params) (x0 : Vec) : Vec :=
  let x1 := reluV (affine m.w1 m.b1 x0)
  let x2 := reluV (affine m.w2 m.b2 x1)
  let x3 := reluV (affine m.w3 m.b3 x2)
  logSoftmax (affine m.w4 m.b4 x3)

/-- Baseline `Classifier.forward` on a batch already shaped B x N: the
initial `x.view(x.shape[0], -1)` is the identity on a two-dimensional
input, and every later operation acts row-wise (log_softmax has dim=1). -/
def Classifier.forward (m : Params) (x : Mat) : Mat :=
  x.map (classifierRow m)

/-- `x.view(x.shape[0], -1)` on a four-dimensional B x C x H x W input:
keep the batch dimension, flatten the rest of each sample. -/
def view4 (x : List (List Mat)) : Mat :=
  x.map (fun s => s.flatten.flatten)

/-- Baseline `Classifier.forward` on a B x C x H x W input: the forward
pass itself flattens each sample before the first affine layer. -/
def Classifier.forward4 (m : Params) (x : List (List Mat)) : Mat :=
  (view4 x).map (classifierRow m)

/-- The drop probability of the `nn.Dropout(0.2)` module of the dropout
variant (cell 16). -/
def dropoutP : ℝ := 0.2

/-- `nn.Dropout` in training mode with an explicit keep-mask: a unit that
is kept is rescaled by 1/(1-p), a dropped unit becomes 0. -/
def dropoutV (p : ℝ) (keep : ℕ → Bool) (v : Vec) : Vec :=
  v.enum.map (fun it => if keep it.1 then it.2 / (1 - p) else 0)

/-- `nn.Dropout` as a module of a model with a training flag: active in
training mode, the identity in evaluation mode. -/
def dropoutLayer (training : Bool) (p : ℝ) (keep : ℕ → Bool) (v : Vec) : Vec :=
  if training then dropoutV p keep v else v

/-- Randomness source for dropout: `noise site row unit` tells whether the
given unit of the given batch row survives at the given dropout site. -/
abbrev Noise := ℕ → ℕ → ℕ → Bool

/-- One row of the dropout-variant `Classifier.forward` (cell 16):
`self.dropout` is applied to each of the three post-ReLU tensors; the
output layer has no dropout. -/
def classifierDropRow (m : Params) (training : Bool) (keep : ℕ → ℕ → Bool)
    (x0 : Vec) : Vec :=
  let x1 := dropoutLayer training dropoutP (keep 0) (reluV (affine m.w1 m.b1 x0))
  let x2 := dropoutLayer training dropoutP (keep 1) (reluV (affine m.w2 m.b2 x1))
  let x3 := dropoutLayer training dropoutP (keep 2) (reluV (affine m.w3 m.b3 x2))
  logSoftmax (affine m.w4 m.b4 x3)

/-- Dropout-variant `Classifier.forward` on a B x N batch, with independent
dropout masks per row. -/
def ClassifierDrop.forward (m : Params) (training : Bool) (noise : Noise)
    (x : Mat) : Mat :=
  x.enum.map (fun it => classifierDropRow m training (fun site => noise site it.1) it.2)

/-- First-index arg-max accumulator: `i` is the index of the head of the
remaining list, `bi`/`bv` the index and value of the current best.  A later
entry replaces the best only when strictly larger, so ties keep the
earliest index. -/
def argmaxAux : ℕ → ℕ → ℝ → List ℝ → ℕ
  | _, bi, _, [] => bi
  | i, bi, bv, x :: t =>
    if bv < x then argmaxAux (i + 1) i x t else argmaxAux (i + 1) bi bv t

/-- `row.topk(1, dim=1)` index on one row: the first index attaining the
maximum (0 on an empty row). -/
def topClass : List ℝ → ℕ
  | [] => 0
  | x :: t => argmaxAux 1 0 x t

/-- `nn.NLLLoss()` with its default mean reduction on a batch of
log-probability rows and integer labels: the mean over the batch of the
negated log-probability assigned to the true class. -/
def nllLoss (logps : Mat) (labels : List ℕ) : ℝ :=
  let terms := (logps.zip labels).map (fun py => -(py.1.getD py.2 0))
  terms.sum / terms.length

/-- One (images, labels) batch produced by a data loader. -/
structure Batch where
  images : Mat
  labels : List ℕ

/-- The mutable state the train/validate loops act on: the model (its
parameters and its `training` flag) and the running metrics.  Each printed
epoch report (mean training loss, mean validation loss, accuracy) is
appended to `reports`. -/
@[ext]
structure LoopSt where
  params : Params
  training : Bool
  running_loss : ℝ
  testing_loss : ℝ
  accuracy : ℝ
  reports : List (ℝ × ℝ × ℝ)

/-- A forward function of a model: parameters, training flag, dropout
noise, input batch. -/
abbrev Fwd := Params → Bool → Noise → Mat → Mat

/-- The baseline classifier as a `Fwd`: it has no dropout module, so the
training flag and the noise are ignored. -/
def baselineFwd : Fwd := fun p _ _ x => Classifier.forward p x

/-- Body of the training batch loop (both loops, cells 13 and 18):
`optimizer.zero_grad()` (no observable effect here), forward pass, loss,
`loss.backward(); optimizer.step()` — abstracted as the external update
`upd` — and accumulation of the loss into `running_loss`.  The body
contains no `break`. -/
def trainBody (fwd : Fwd) (upd : Params → Batch → Params)
    (st : LoopSt) (bn : Batch × Noise) : LoopSt × Bool :=
  let log_ps := fwd st.params st.training bn.2 bn.1.images
  let loss := nllLoss log_ps bn.1.labels
  ({ st with params := upd st.params bn.1,
             running_loss := st.running_loss + loss }, false)

/-- Body of the validation batch loop (both loops): forward pass, loss
accumulated into `testing_loss`, `topk(1, dim=1)` per row, comparison with
the labels, and accumulation of the number of matches into `accuracy`.
The body contains no `break` and never touches the parameters. -/
def valBody (fwd : Fwd) (st : LoopSt) (b : Batch) : LoopSt × Bool :=
  let log_ps := fwd st.params st.training (fun _ _ _ => true) b.images
  let loss := nllLoss log_ps b.labels
  let top_class := log_ps.map topClass
  let equals := List.zipWith (fun c y => if c = y then (1 : ℝ) else 0) top_class b.labels
  ({ st with testing_loss := st.testing_loss + loss,
             accuracy := st.accuracy + equals.sum }, false)

/-- The `else` block of the validation loop: divide the accumulated losses
by the number of batches of the respective loader, divide the accumulated
correct count by the number of held-out samples, and print the epoch
report. -/
def valElse (nTrainBatches nValBatches nSamples : ℕ) (st : LoopSt) : LoopSt :=
  let running_loss := st.running_loss / nTrainBatches
  let testing_loss := st.testing_loss / nValBatches
  let accuracy := st.accuracy / nSamples
  { st with running_loss := running_loss, testing_loss := testing_loss,
            accuracy := accuracy,
            reports := st.reports ++ [(running_loss, testing_loss, accuracy)] }

/-- The `else` block of the dropout loop's training loop (cell 18): call
`model.eval()`, open `torch.no_grad()`, zero the validation metrics, run
the validation batch loop with its own trailing `else`. -/
def valPassDrop (fwd : Fwd) (nTrainBatches nSamples : ℕ) (val : List Batch)
    (st : LoopSt) : LoopSt :=
  forElse (valBody fwd) (valElse nTrainBatches val.length nSamples) val
    { st with training := false, testing_loss := 0, accuracy := 0 }

/-- The `else` block of the baseline loop's training loop (cell 13): the
same as `valPassDrop` but with no `model.eval()` call — the training flag
is untouched. -/
def valPassBase (fwd : Fwd) (nTrainBatches nSamples : ℕ) (val : List Batch)
    (st : LoopSt) : LoopSt :=
  forElse (valBody fwd) (valElse nTrainBatches val.length nSamples) val
    { st with testing_loss := 0, accuracy := 0 }

/-- One epoch of the dropout-variant loop (cell 18): `model.train()`,
`running_loss = 0`, the training batch loop with the validation pass as its
trailing `else`. -/
def dropoutEpoch (upd : Params → Batch → Params) (train : List (Batch × Noise))
    (val : List Batch) (nSamples : ℕ) (st0 : LoopSt) : LoopSt :=
  forElse (trainBody ClassifierDrop.forward upd)
    (valPassDrop ClassifierDrop.forward train.length nSamples val)
    train { st0 with training := true, running_loss := 0 }

/-- One epoch of the baseline loop (cell 13): `running_loss = 0`, the
training batch loop with the validation pass as its trailing `else`; no
mode switches anywhere. -/
def baselineEpoch (upd : Params → Batch → Params) (train : List (Batch × Noise))
    (val : List Batch) (nSamples : ℕ) (st0 : LoopSt) : LoopSt :=
  forElse (trainBody baselineFwd upd)
    (valPassBase baselineFwd train.length nSamples val)
    train { st0 with running_loss := 0 }

/-- The dropout epoch with both `for/else` constructs replaced by a plain
fold followed by the unconditional `else` code. -/
def dropoutEpochSeq (upd : Params → Batch → Params) (train : List (Batch × Noise))
    (val : List Batch) (nSamples : ℕ) (st0 : LoopSt) : LoopSt :=
  let stT := train.foldl (fun t bn => (trainBody ClassifierDrop.forward upd t bn).1)
    { st0 with training := true, running_loss := 0 }
  let stV := val.foldl (fun t b => (valBody ClassifierDrop.forward t b).1)
    { stT with training := false, testing_loss := 0, accuracy := 0 }
  valElse train.length val.length nSamples stV

/-- The baseline epoch with both `for/else` constructs replaced by a plain
fold followed by the unconditional `else` code. -/
def baselineEpochSeq (upd : Params → Batch → Params) (train : List (Batch × Noise))
    (val : List Batch) (nSamples : ℕ) (st0 : LoopSt) : LoopSt :=
  let stT := train.foldl (fun t bn => (trainBody baselineFwd upd t bn).1)
    { st0 with running_loss := 0 }
  let stV := val.foldl (fun t b => (valBody baselineFwd t b).1)
    { stT with testing_loss := 0, accuracy := 0 }
  valElse train.length val.length nSamples stV

/-- Parameters after the training pass: the external optimizer update
folded over the training batches. -/
def trainedFrom (upd : Params → Batch → Params) :
    Params → List (Batch × Noise) → Params
  | p, [] => p
  | p, bn :: t => trainedFrom upd (upd p bn.1) t

/-- The per-batch training losses of a pass, each computed with the
parameters current when that batch is processed (the loss is taken before
the optimizer step of the same iteration). -/
def lossesAlong (fwd : Fwd) (upd : Params → Batch → Params) (training : Bool) :
    Params → List (Batch × Noise) → List ℝ
  | _, [] => []
  | p, bn :: t =>
    nllLoss (fwd p training bn.2 bn.1.images) bn.1.labels ::
      lossesAlong fwd upd training (upd p bn.1) t

/-- Validation loss of one batch at fixed parameters and mode. -/
def valLossOf (fwd : Fwd) (p : Params) (training : Bool) (b : Batch) : ℝ :=
  nllLoss (fwd p training (fun _ _ _ => true) b.images) b.labels

/-- Correct top-1 count of one validation batch at fixed parameters and
mode: the sum of the 0/1 indicators comparing each row's `topClass` with
the label. -/
def correctOf (fwd : Fwd) (p : Params) (training : Bool) (b : Batch) : ℝ :=
  (List.zipWith (fun c y => if c = y then (1 : ℝ) else 0)
    ((fwd p training (fun _ _ _ => true) b.images).map topClass) b.labels).sum

/-- The pipeline of the spec for the baseline variant, as a literal stage
list: affine, rectification after every affine except the last, no dropout
stage, final log-normalization. -/
def specStagesBase (m : Params) : List (Vec → Vec) :=
  [affine m.w1 m.b1, reluV,
   affine m.w2 m.b2, reluV,
   affine m.w3 m.b3, reluV,
   affine m.w4 m.b4, logSoftmax]

/-- The pipeline of the spec for the regularized variant: a dropout stage
(probability `dropoutP`, active only in training mode) after each of the
first three post-activation tensors. -/
def specStagesDrop (m : Params) (training : Bool) (keep : ℕ → ℕ → Bool) :
    List (Vec → Vec) :=
  [affine m.w1 m.b1, reluV, dropoutLayer training dropoutP (keep 0),
   affine m.w2 m.b2, reluV, dropoutLayer training dropoutP (keep 1),
   affine m.w3 m.b3, reluV, dropoutLayer training dropoutP (keep 2),
   affine m.w4 m.b4, logSoftmax]

/-- Run a stage list left to right on a row. -/
def runStages (fs : List (Vec → Vec)) (x : Vec) : Vec :=
  fs.foldl (fun v f => f v) x

/-- Concrete parameters for witnesses: the output layer has its ten rows
and biases, the hidden layers are left empty (the shape facts the claim
theorems assume concern only the output layer). -/
def wParams : Params :=
  { w1 := [], b1 := [], w2 := [], b2 := [], w3 := [], b3 := [],
    w4 := List.replicate 10 [], b4 := List.replicate 10 0 }

/-- A concrete loop state for witnesses. -/
def wSt : LoopSt :=
  { params := wParams, training := false, running_loss := 3,
    testing_loss := 5, accuracy := 7, reports := [] }

/-- A concrete one-sample batch for witnesses. -/
def wBatch : Batch := { images := [[0]], labels := [0] }

/-- A concrete B x C x H x W input (one 1 x 28 x 28 sample) for the
flattening witness. -/
def wImg4 : List (List Mat) := [[List.replicate 28 (List.replicate 28 (0 : ℝ))]]

end

theorem forElse_eq_foldl {σ α : Type _} (body : σ → α → σ × Bool) (els : σ → σ)
    (hb : ∀ s x, (body s x).2 = false) (xs : List α) (s : σ) :
    forElse body els xs s = els (xs.foldl (fun t x => (body t x).1) s) := by
  induction xs generalizing s with
  | nil => rfl
  | cons x t ih => simp [forElse, hb, ih]

theorem trace_fold {α : Type _} (e : Ev) (els : List Ev → List Ev)
    (xs : List α) (tr : List Ev) :
    forElse (fun tr2 _ => (tr2 ++ [e], false)) els xs tr
      = els (tr ++ List.replicate xs.length e) := by
  induction xs generalizing tr with
  | nil => simp [forElse]
  | cons x t ih => simp [forElse, ih, List.replicate_succ]

theorem baselineEpochTrace_eq {α β : Type _} (train : List α) (val : List β) :
    baselineEpochTrace train val
      = List.replicate train.length Ev.trainBatch ++
          (List.replicate val.length Ev.valBatch ++ [Ev.report]) := by
  simp [baselineEpochTrace, trace_fold]

theorem dropoutEpochTrace_eq {α β : Type _} (train : List α) (val : List β) :
    dropoutEpochTrace train val
      = Ev.setTrain :: (List.replicate train.length Ev.trainBatch ++
          (Ev.setEval :: (List.replicate val.length Ev.valBatch ++ [Ev.report]))) := by
  simp [dropoutEpochTrace, trace_fold]

theorem sum_exp_pos (z : Vec) (hz : z ≠ []) : 0 < (z.map Real.exp).sum := by
  cases z with
  | nil => exact absurd rfl hz
  | cons a t =>
    have h1 : 0 ≤ (t.map Real.exp).sum := by
      apply List.sum_nonneg
      intro x hx
      obtain ⟨y, _, rfl⟩ := List.mem_map.1 hx
      exact (Real.exp_pos y).le
    simp only [List.map_cons, List.sum_cons]
    have := Real.exp_pos a
    linarith

theorem logSoftmax_expSum (z : Vec) (hz : z ≠ []) :
    ((logSoftmax z).map Real.exp).sum = 1 := by
  have hS : 0 < (z.map Real.exp).sum := sum_exp_pos z hz
  have hmap : (logSoftmax z).map Real.exp
      = z.map (fun zj => Real.exp zj * ((z.map Real.exp).sum)⁻¹) := by
    simp only [logSoftmax, List.map_map]
    congr 1
    funext zj
    simp [Function.comp, Real.exp_sub, Real.exp_log hS, div_eq_mul_inv]
  rw [hmap, List.sum_map_mul_right]
  exact mul_inv_cancel₀ (ne_of_gt hS)

theorem logSoftmax_nonpos (z : Vec) : ∀ y ∈ logSoftmax z, y ≤ 0 := by
  intro y hy
  obtain ⟨zj, hzj, rfl⟩ := List.mem_map.1 hy
  have hz : z ≠ [] := by rintro rfl; simp at hzj
  have hS : 0 < (z.map Real.exp).sum := sum_exp_pos z hz
  have hle : Real.exp zj ≤ (z.map Real.exp).sum := by
    apply List.single_le_sum
    · intro x hx
      obtain ⟨y2, _, rfl⟩ := List.mem_map.1 hx
      exact (Real.exp_pos _).le
    · exact List.mem_map_of_mem Real.exp hzj
  have := (Real.le_log_iff_exp_le hS).2 hle
  linarith

theorem logSoftmax_length (z : Vec) : (logSoftmax z).length = z.length := by
  simp [logSoftmax]

theorem affine_length (W : Mat) (b : Vec) (x : Vec) :
    (affine W b x).length = min W.length b.length := by
  simp [affine]

theorem nllLoss_nonneg (logps : Mat) (labels : List ℕ)
    (h : ∀ row ∈ logps, ∀ y ∈ row, y ≤ 0) : 0 ≤ nllLoss logps labels := by
  unfold nllLoss
  apply div_nonneg _ (Nat.cast_nonneg _)
  apply List.sum_nonneg
  intro x hx
  obtain ⟨py, hpy, rfl⟩ := List.mem_map.1 hx
  have hrow : py.1 ∈ logps := (List.of_mem_zip hpy).1
  rcases lt_or_ge py.2 py.1.length with hlt | hge
  · have hmem : py.1.getD py.2 0 ∈ py.1 := by
      rw [List.getD_eq_getElem _ _ hlt]
      exact List.getElem_mem hlt
    have := h py.1 hrow _ hmem
    linarith
  · rw [List.getD_eq_default _ _ hge]
    simp

theorem classifierDropRow_eval (m : Params) (keep : ℕ → ℕ → Bool) (x : Vec) :
    classifierDropRow m false keep x = classifierRow m x := by
  simp [classifierDropRow, classifierRow, dropoutLayer]

theorem mem_forward_base (m : Params) (x : Mat) :
    ∀ row ∈ Classifier.forward m x, ∃ v, row = logSoftmax (affine m.w4 m.b4 v) := by
  intro row hrow
  obtain ⟨r, _, rfl⟩ := List.mem_map.1 hrow
  exact ⟨_, rfl⟩

theorem mem_forward_drop (m : Params) (training : Bool) (noise : Noise) (x : Mat) :
    ∀ row ∈ ClassifierDrop.forward m training noise x,
      ∃ v, row = logSoftmax (affine m.w4 m.b4 v) := by
  intro row hrow
  obtain ⟨r, _, rfl⟩ := List.mem_map.1 hrow
  exact ⟨_, rfl⟩

theorem forward_base_length (m : Params) (x : Mat) :
    (Classifier.forward m x).length = x.length := by
  simp [Classifier.forward]

theorem forward_drop_length (m : Params) (training : Bool) (noise : Noise) (x : Mat) :
    (ClassifierDrop.forward m training noise x).length = x.length := by
  simp [ClassifierDrop.forward]

theorem forward_base_nonpos (m : Params) (x : Mat) :
    ∀ row ∈ Classifier.forward m x, ∀ y ∈ row, y ≤ 0 := by
  intro row hrow
  obtain ⟨v, rfl⟩ := mem_forward_base m x row hrow
  exact logSoftmax_nonpos _

theorem forward_drop_nonpos (m : Params) (training : Bool) (noise : Noise) (x : Mat) :
    ∀ row ∈ ClassifierDrop.forward m training noise x, ∀ y ∈ row, y ≤ 0 := by
  intro row hrow
  obtain ⟨v, rfl⟩ := mem_forward_drop m training noise x row hrow
  exact logSoftmax_nonpos _

theorem trainFold_spec (fwd : Fwd) (upd : Params → Batch → Params)
    (train : List (Batch × Noise)) (st : LoopSt) :
    (train.foldl (fun t bn => (trainBody fwd upd t bn).1) st).params
      = trainedFrom upd st.params train ∧
    (train.foldl (fun t bn => (trainBody fwd upd t bn).1) st).training = st.training ∧
    (train.foldl (fun t bn => (trainBody fwd upd t bn).1) st).running_loss
      = st.running_loss + (lossesAlong fwd upd st.training st.params train).sum ∧
    (train.foldl (fun t bn => (trainBody fwd upd t bn).1) st).testing_loss
      = st.testing_loss ∧
    (train.foldl (fun t bn => (trainBody fwd upd t bn).1) st).accuracy = st.accuracy ∧
    (train.foldl (fun t bn => (trainBody fwd upd t bn).1) st).reports = st.reports := by
  induction train generalizing st with
  | nil => simp [trainedFrom, lossesAlong]
  | cons bn t ih =>
    obtain ⟨h1, h2, h3, h4, h5, h6⟩ := ih (trainBody fwd upd st bn).1
    simp only [List.foldl_cons]
    refine ⟨?_, ?_, ?_, ?_, ?_, ?_⟩
    · rw [h1]; simp [trainBody, trainedFrom]
    · rw [h2]; simp [trainBody]
    · rw [h3]
      simp only [trainBody, lossesAlong, List.sum_cons]
      ring
    · rw [h4]; simp [trainBody]
    · rw [h5]; simp [trainBody]
    · rw [h6]; simp [trainBody]

theorem valFold_spec (fwd : Fwd) (val : List Batch) (st : LoopSt) :
    (val.foldl (fun t b => (valBody fwd t b).1) st).params = st.params ∧
    (val.foldl (fun t b => (valBody fwd t b).1) st).training = st.training ∧
    (val.foldl (fun t b => (valBody fwd t b).1) st).running_loss = st.running_loss ∧
    (val.foldl (fun t b => (valBody fwd t b).1) st).testing_loss
      = st.testing_loss + (val.map (valLossOf fwd st.params st.training)).sum ∧
    (val.foldl (fun t b => (valBody fwd t b).1) st).accuracy
      = st.accuracy + (val.map (correctOf fwd st.params st.training)).sum ∧
    (val.foldl (fun t b => (valBody fwd t b).1) st).reports = st.reports := by
  induction val generalizing st with
  | nil => simp
  | cons b t ih =>
    obtain ⟨h1, h2, h3, h4, h5, h6⟩ := ih (valBody fwd st b).1
    simp only [List.foldl_cons]
    refine ⟨?_, ?_, ?_, ?_, ?_, ?_⟩
    · rw [h1]; simp [valBody]
    · rw [h2]; simp [valBody]
    · rw [h3]; simp [valBody]
    · rw [h4]
      simp only [valBody, valLossOf, List.map_cons, List.sum_cons]
      ring
    · rw [h5]
      simp only [valBody, correctOf, List.map_cons, List.sum_cons]
      ring
    · rw [h6]; simp [valBody]

theorem dropoutEpoch_seq (upd : Params → Batch → Params)
    (train : List (Batch × Noise)) (val : List Batch) (nSamples : ℕ) (st0 : LoopSt) :
    dropoutEpoch upd train val nSamples st0
      = dropoutEpochSeq upd train val nSamples st0 := by
  rw [dropoutEpoch, forElse_eq_foldl _ _ (fun s x => rfl), valPassDrop,
    forElse_eq_foldl _ _ (fun s x => rfl)]
  rfl

theorem baselineEpoch_seq (upd : Params → Batch → Params)
    (train : List (Batch × Noise)) (val : List Batch) (nSamples : ℕ) (st0 : LoopSt) :
    baselineEpoch upd train val nSamples st0
      = baselineEpochSeq upd train val nSamples st0 := by
  rw [baselineEpoch, forElse_eq_foldl _ _ (fun s x => rfl), valPassBase,
    forElse_eq_foldl _ _ (fun s x => rfl)]
  rfl

theorem argmaxAux_spec (L : Vec) (t : List ℝ) :
    ∀ (i bi : ℕ) (bv : ℝ),
      i + t.length = L.length →
      bi < i →
      L.getD bi 0 = bv →
      (∀ k, k < t.length → t.getD k 0 = L.getD (i + k) 0) →
      (∀ j, j < i → L.getD j 0 ≤ bv) →
      (∀ j, j < bi → L.getD j 0 < bv) →
      argmaxAux i bi bv t < L.length ∧
      (∀ j, j < L.length → L.getD j 0 ≤ L.getD (argmaxAux i bi bv t) 0) ∧
      (∀ j, j < argmaxAux i bi bv t → L.getD j 0 < L.getD (argmaxAux i bi bv t) 0) := by
  induction t with
  | nil =>
    intro i bi bv hlen hbi hbv _ hle hlt
    simp only [List.length_nil, Nat.add_zero] at hlen
    simp only [argmaxAux]
    refine ⟨by omega, ?_, ?_⟩
    · intro j hj
      rw [hbv]
      exact hle j (by omega)
    · intro j hj
      rw [hbv]
      exact hlt j hj
  | cons x t ih =>
    intro i bi bv hlen hbi hbv hsuf hle hlt
    have hx : L.getD i 0 = x := by
      have := hsuf 0 (by simp)
      simpa using this.symm
    rw [argmaxAux]
    split_ifs with h
    · refine ih (i + 1) i x (by simp at hlen; omega) (by omega) hx ?_ ?_ ?_
      · intro k hk
        have hs := hsuf (k + 1) (by simp; omega)
        have harith : i + (k + 1) = i + 1 + k := by omega
        rw [harith] at hs
        simpa using hs
      · intro j hj
        rcases Nat.lt_succ_iff_lt_or_eq.1 hj with hj2 | rfl
        · exact (hle j hj2).trans h.le
        · exact hx.le
      · intro j hj
        exact lt_of_le_of_lt (hle j hj) h
    · refine ih (i + 1) bi bv (by simp at hlen; omega) (by omega) hbv ?_ ?_ hlt
      · intro k hk
        have hs := hsuf (k + 1) (by simp; omega)
        have harith : i + (k + 1) = i + 1 + k := by omega
        rw [harith] at hs
        simpa using hs
      · intro j hj
        rcases Nat.lt_succ_iff_lt_or_eq.1 hj with hj2 | rfl
        · exact hle j hj2
        · rw [hx]
          exact not_lt.1 h

theorem sum_le_length_of_le_one (l : List ℝ) (h : ∀ x ∈ l, x ≤ 1) :
    l.sum ≤ l.length := by
  have := List.sum_le_card_nsmul l 1 h
  simpa using this

theorem all_one_of_sum_eq_length (l : List ℝ) (h1 : ∀ x ∈ l, x ≤ 1)
    (h2 : l.sum = l.length) : ∀ x ∈ l, x = 1 := by
  induction l with
  | nil => simp
  | cons a t ih =>
    have hta : a ≤ 1 := h1 a (by simp)
    have htt : ∀ x ∈ t, x ≤ 1 := fun x hx => h1 x (by simp [hx])
    have hts : t.sum ≤ t.length := sum_le_length_of_le_one t htt
    have hsum : a + t.sum = (t.length : ℝ) + 1 := by
      have := h2
      simp only [List.sum_cons, List.length_cons] at this
      push_cast at this
      linarith
    have ha : a = 1 := by linarith
    have htsum : t.sum = t.length := by linarith
    intro x hx
    rcases List.mem_cons.1 hx with rfl | hx2
    · exact ha
    · exact ih htt htsum x hx2

theorem map_sum_eq_forces_eq {α : Type _} (l : List α) (f g : α → ℝ)
    (hle : ∀ x ∈ l, f x ≤ g x) (hsum : (l.map f).sum = (l.map g).sum) :
    ∀ x ∈ l, f x = g x := by
  induction l with
  | nil => simp
  | cons a t ih =>
    have h1 : f a ≤ g a := hle a (by simp)
    have h2 : ∀ x ∈ t, f x ≤ g x := fun x hx => hle x (by simp [hx])
    have h3 : (t.map f).sum ≤ (t.map g).sum := List.sum_le_sum h2
    have h4 : f a + (t.map f).sum = g a + (t.map g).sum := by simpa using hsum
    have hfa : f a = g a := by linarith
    have h5 : (t.map f).sum = (t.map g).sum := by linarith
    intro x hx
    rcases List.mem_cons.1 hx with rfl | hx2
    · exact hfa
    · exact ih h2 h5 x hx2

theorem indicator_mem_zero_one (cs ys : List ℕ) :
    ∀ x ∈ List.zipWith (fun c y => if c = y then (1 : ℝ) else 0) cs ys,
      x = 0 ∨ x = 1 := by
  induction cs generalizing ys with
  | nil => simp
  | cons c cs ih =>
    cases ys with
    | nil => simp
    | cons y ys =>
      intro x hx
      simp only [List.zipWith_cons_cons, List.mem_cons] at hx
      rcases hx with rfl | hx2
      · split_ifs <;> simp
      · exact ih ys x hx2

theorem indicator_sum_nonneg (cs ys : List ℕ) :
    0 ≤ (List.zipWith (fun c y => if c = y then (1 : ℝ) else 0) cs ys).sum := by
  apply List.sum_nonneg
  intro x hx
  rcases indicator_mem_zero_one cs ys x hx with rfl | rfl <;> norm_num

theorem indicator_sum_le (cs ys : List ℕ) :
    (List.zipWith (fun c y => if c = y then (1 : ℝ) else 0) cs ys).sum
      ≤ (ys.length : ℝ) := by
  have h1 : (List.zipWith (fun c y => if c = y then (1 : ℝ) else 0) cs ys).sum
      ≤ ((List.zipWith (fun c y => if c = y then (1 : ℝ) else 0) cs ys).length : ℝ) := by
    apply sum_le_length_of_le_one
    intro x hx
    rcases indicator_mem_zero_one cs ys x hx with rfl | rfl <;> norm_num
  have h2 : (List.zipWith (fun c y => if c = y then (1 : ℝ) else 0) cs ys).length
      ≤ ys.length := by
    rw [List.length_zipWith]
    omega
  calc (List.zipWith (fun c y => if c = y then (1 : ℝ) else 0) cs ys).sum
      ≤ _ := h1
    _ ≤ (ys.length : ℝ) := by exact_mod_cast h2

theorem indicator_all_one (cs ys : List ℕ) (hlen : ys.length ≤ cs.length)
    (hone : ∀ x ∈ List.zipWith (fun c y => if c = y then (1 : ℝ) else 0) cs ys,
      x = 1) :
    ∀ i, i < ys.length → cs.getD i 0 = ys.getD i 0 := by
  intro i hi
  have hiz : i < (List.zipWith (fun c y => if c = y then (1 : ℝ) else 0) cs ys).length := by
    rw [List.length_zipWith]
    omega
  have h1 := hone _ (List.getElem_mem hiz)
  rw [List.getElem_zipWith] at h1
  rw [List.getD_eq_getElem _ _ (by omega : i < cs.length),
    List.getD_eq_getElem _ _ hi]
  by_contra hne
  rw [if_neg hne] at h1
  norm_num at h1

theorem dropoutEpoch_closed (upd : Params → Batch → Params)
    (train : List (Batch × Noise)) (val : List Batch) (N : ℕ) (st0 : LoopSt) :
    dropoutEpoch upd train val N st0 =
      { params := trainedFrom upd st0.params train,
        training := false,
        running_loss :=
          (lossesAlong ClassifierDrop.forward upd true st0.params train).sum / train.length,
        testing_loss :=
          (val.map (valLossOf ClassifierDrop.forward (trainedFrom upd st0.params train) false)).sum
            / val.length,
        accuracy :=
          (val.map (correctOf ClassifierDrop.forward (trainedFrom upd st0.params train) false)).sum
            / N,
        reports := st0.reports ++
          [((lossesAlong ClassifierDrop.forward upd true st0.params train).sum / train.length,
            (val.map (valLossOf ClassifierDrop.forward (trainedFrom upd st0.params train) false)).sum
              / val.length,
            (val.map (correctOf ClassifierDrop.forward (trainedFrom upd st0.params train) false)).sum
              / N)] } := by
  rw [dropoutEpoch_seq]
  simp only [dropoutEpochSeq]
  obtain ⟨t1, t2, t3, t4, t5, t6⟩ := trainFold_spec ClassifierDrop.forward upd train
    { st0 with training := true, running_loss := 0 }
  obtain ⟨v1, v2, v3, v4, v5, v6⟩ := valFold_spec ClassifierDrop.forward val
    { (train.foldl (fun t bn => (trainBody ClassifierDrop.forward upd t bn).1)
        { st0 with training := true, running_loss := 0 }) with
      training := false, testing_loss := 0, accuracy := 0 }
  apply LoopSt.ext <;>
    simp_all [valElse, trainedFrom]

theorem baselineEpoch_closed (upd : Params → Batch → Params)
    (train : List (Batch × Noise)) (val : List Batch) (N : ℕ) (st0 : LoopSt) :
    baselineEpoch upd train val N st0 =
      { params := trainedFrom upd st0.params train,
        training := st0.training,
        running_loss :=
          (lossesAlong baselineFwd upd st0.training st0.params train).sum / train.length,
        testing_loss :=
          (val.map (valLossOf baselineFwd (trainedFrom upd st0.params train) st0.training)).sum
            / val.length,
        accuracy :=
          (val.map (correctOf baselineFwd (trainedFrom upd st0.params train) st0.training)).sum
            / N,
        reports := st0.reports ++
          [((lossesAlong baselineFwd upd st0.training st0.params train).sum / train.length,
            (val.map (valLossOf baselineFwd (trainedFrom upd st0.params train) st0.training)).sum
              / val.length,
            (val.map (correctOf baselineFwd (trainedFrom upd st0.params train) st0.training)).sum
              / N)] } := by
  rw [baselineEpoch_seq]
  simp only [baselineEpochSeq]
  obtain ⟨t1, t2, t3, t4, t5, t6⟩ := trainFold_spec baselineFwd upd train
    { st0 with running_loss := 0 }
  obtain ⟨v1, v2, v3, v4, v5, v6⟩ := valFold_spec baselineFwd val
    { (train.foldl (fun t bn => (trainBody baselineFwd upd t bn).1)
        { st0 with running_loss := 0 }) with
      testing_loss := 0, accuracy := 0 }
  apply LoopSt.ext <;>
    simp_all [valElse, trainedFrom]

theorem lossesAlong_nonneg (fwd : Fwd)
    (hfwd : ∀ p tr n x, ∀ row ∈ fwd p tr n x, ∀ y ∈ row, y ≤ 0)
    (upd : Params → Batch → Params) (tr : Bool) (p : Params)
    (bs : List (Batch × Noise)) :
    ∀ L ∈ lossesAlong fwd upd tr p bs, 0 ≤ L := by
  induction bs generalizing p with
  | nil => simp [lossesAlong]
  | cons bn t ih =>
    intro L hL
    rcases List.mem_cons.1 (by simpa [lossesAlong] using hL) with rfl | h2
    · exact nllLoss_nonneg _ _ (hfwd p tr bn.2 bn.1.images)
    · exact ih (upd p bn.1) L h2

theorem accuracy_analysis (fwd : Fwd) (tr : Bool) (p : Params)
    (val : List Batch) (N : ℕ)
    (hflen : ∀ (pp : Params) (t : Bool) (n : Noise) (x : Mat),
      (fwd pp t n x).length = x.length)
    (hN : N = (val.map (fun b => b.labels.length)).sum)
    (hlen : ∀ b ∈ val, b.images.length = b.labels.length)
    (hNpos : 0 < N) :
    0 ≤ (val.map (correctOf fwd p tr)).sum / (N : ℝ) ∧
    (val.map (correctOf fwd p tr)).sum / (N : ℝ) ≤ 1 ∧
    ((val.map (correctOf fwd p tr)).sum / (N : ℝ) = 1 →
      ∀ b ∈ val, ∀ i, i < b.labels.length →
        topClass ((fwd p tr (fun _ _ _ => true) b.images).getD i [])
          = b.labels.getD i 0) := by
  have hN0 : (0 : ℝ) < N := by exact_mod_cast hNpos
  have hNr : (N : ℝ) = (val.map (fun b => (b.labels.length : ℝ))).sum := by
    rw [hN, Nat.cast_list_sum, List.map_map]
    rfl
  have hptw : ∀ b ∈ val, correctOf fwd p tr b ≤ (b.labels.length : ℝ) := by
    intro b _
    simp only [correctOf]
    exact indicator_sum_le _ _
  have hSnn : 0 ≤ (val.map (correctOf fwd p tr)).sum := by
    apply List.sum_nonneg
    intro x hx
    obtain ⟨b, hb, rfl⟩ := List.mem_map.1 hx
    simp only [correctOf]
    exact indicator_sum_nonneg _ _
  have hSleN : (val.map (correctOf fwd p tr)).sum ≤ (N : ℝ) := by
    rw [hNr]
    exact List.sum_le_sum hptw
  refine ⟨div_nonneg hSnn hN0.le, (div_le_one hN0).2 hSleN, ?_⟩
  intro h1 b hb i hi
  have hSN : (val.map (correctOf fwd p tr)).sum = (N : ℝ) := by
    rw [div_eq_one_iff_eq (ne_of_gt hN0)] at h1
    exact h1
  have hforced : ∀ b2 ∈ val, correctOf fwd p tr b2 = (b2.labels.length : ℝ) := by
    apply map_sum_eq_forces_eq val _ _ hptw
    rw [hSN, hNr]
  have hcb := hforced b hb
  simp only [correctOf] at hcb
  have hcs_len : ((fwd p tr (fun _ _ _ => true) b.images).map topClass).length
      = b.labels.length := by
    rw [List.length_map, hflen, hlen b hb]
  have hzip_len : (List.zipWith (fun c y => if c = y then (1 : ℝ) else 0)
      ((fwd p tr (fun _ _ _ => true) b.images).map topClass) b.labels).length
      = b.labels.length := by
    rw [List.length_zipWith, hcs_len]
    simp
  have hall1 : ∀ z ∈ List.zipWith (fun c y => if c = y then (1 : ℝ) else 0)
      ((fwd p tr (fun _ _ _ => true) b.images).map topClass) b.labels, z = 1 := by
    apply all_one_of_sum_eq_length
    · intro z hz
      rcases indicator_mem_zero_one _ _ z hz with rfl | rfl <;> norm_num
    · rw [hzip_len]
      exact hcb
  have hidx := indicator_all_one _ _ (le_of_eq hcs_len.symm) hall1 i hi
  have hi2 : i < (fwd p tr (fun _ _ _ => true) b.images).length := by
    rw [hflen, hlen b hb]
    exact hi
  have hmapgetD : ((fwd p tr (fun _ _ _ => true) b.images).map topClass).getD i 0
      = topClass ((fwd p tr (fun _ _ _ => true) b.images).getD i []) := by
    rw [List.getD_eq_getElem _ _ (by rw [List.length_map]; exact hi2),
      List.getD_eq_getElem _ _ hi2, List.getElem_map]
  rw [hmapgetD] at hidx
  exact hidx

/-- C1 counterexample: the claim asserts that the baseline loop, too, sets
the model to training-mode at the start of its training pass and to
evaluation-mode before its validation pass.  On a concrete epoch with one
training batch and one validation batch, the baseline loop's event trace
contains neither a `model.train()` nor a `model.eval()` event: cell 13 of
the notebook has no such call. -/
theorem baseline_loop_never_switches_mode :
    Ev.setTrain ∉ baselineEpochTrace [()] [()] ∧
    Ev.setEval ∉ baselineEpochTrace [()] [()] := by
  decide

/-- C1 (amended): in every epoch of the dropout-variant loop the model is
set to training-mode first, then the training batches run, then the model
is set to evaluation-mode, then the validation batches run, then the
report; the baseline loop's epoch never switches the mode in either
direction. -/
theorem mode_switch_discipline {α β : Type _} (train : List α) (val : List β) :
    dropoutEpochTrace train val
      = Ev.setTrain :: (List.replicate train.length Ev.trainBatch ++
          (Ev.setEval :: (List.replicate val.length Ev.valBatch ++ [Ev.report]))) ∧
    Ev.setTrain ∉ baselineEpochTrace train val ∧
    Ev.setEval ∉ baselineEpochTrace train val := by
  refine ⟨dropoutEpochTrace_eq train val, ?_, ?_⟩ <;>
  · rw [baselineEpochTrace_eq]
    simp [List.mem_replicate]

/-- C3: both forward passes compute exactly the spec's pipeline — affine
784-256, rectification, affine 256-128, rectification, affine 128-64,
rectification, affine 64-10, log-normalization — with a dropout stage of
probability 0.2 after each of the first three activations in the
regularized variant only (a stage that is the identity outside
training-mode), and no dropout stage at all in the baseline variant. -/
theorem forward_matches_spec_pipeline (m : Params) (training : Bool)
    (keep : ℕ → ℕ → Bool) (x : Vec) :
    classifierRow m x = runStages (specStagesBase m) x ∧
    classifierDropRow m training keep x
      = runStages (specStagesDrop m training keep) x ∧
    classifierDropRow m false keep x = classifierRow m x ∧
    dropoutP = 1 / 5 := by
  refine ⟨rfl, rfl, classifierDropRow_eval m keep x, by norm_num [dropoutP]⟩

/-- C5: a validation pass — in the dropout loop as well as in the baseline
loop — leaves every model parameter (the weights and biases of the four
affine layers) exactly as it found it: no statement in the pass writes to
the parameters. -/
theorem validation_pass_preserves_params (nT nS : ℕ) (val : List Batch)
    (st : LoopSt) :
    (valPassDrop ClassifierDrop.forward nT nS val st).params = st.params ∧
    (valPassBase baselineFwd nT nS val st).params = st.params := by
  constructor
  · rw [valPassDrop, forElse_eq_foldl _ _ (fun s x => rfl)]
    obtain ⟨v1, -, -, -, -, -⟩ := valFold_spec ClassifierDrop.forward val
      { st with training := false, testing_loss := 0, accuracy := 0 }
    simpa [valElse] using v1
  · rw [valPassBase, forElse_eq_foldl _ _ (fun s x => rfl)]
    obtain ⟨v1, -, -, -, -, -⟩ := valFold_spec baselineFwd val
      { st with testing_loss := 0, accuracy := 0 }
    simpa [valElse] using v1

/-- C6: with the model in evaluation-mode the forward pass is
deterministic — its output does not depend on the dropout randomness, so
two forward passes on the same input give identical output. -/
theorem eval_mode_forward_deterministic (m : Params) (x : Mat)
    (noise1 noise2 : Noise) :
    ClassifierDrop.forward m false noise1 x
      = ClassifierDrop.forward m false noise2 x := by
  simp [ClassifierDrop.forward, classifierDropRow_eval]

/-- C7: the reported mean training loss of an epoch is non-negative in both
loops: every batch loss is a mean of negated entries of log_softmax rows,
each of which is at most 0, and the final division is by a non-negative
batch count. -/
theorem mean_training_loss_nonneg (upd : Params → Batch → Params)
    (train : List (Batch × Noise)) (val : List Batch) (N : ℕ)
    (st0 st1 : LoopSt) :
    0 ≤ (dropoutEpoch upd train val N st0).running_loss ∧
    0 ≤ (baselineEpoch upd train val N st1).running_loss := by
  constructor
  · rw [dropoutEpoch_closed]
    apply div_nonneg _ (Nat.cast_nonneg _)
    apply List.sum_nonneg
    exact lossesAlong_nonneg ClassifierDrop.forward
      (fun p tr n x => forward_drop_nonpos p tr n x) upd true st0.params train
  · rw [baselineEpoch_closed]
    apply div_nonneg _ (Nat.cast_nonneg _)
    apply List.sum_nonneg
    exact lossesAlong_nonneg baselineFwd
      (fun p tr n x => forward_base_nonpos p x) upd st1.training st1.params train

/-- C8: the per-row prediction used by the accuracy count, `topClass`
(the embedding of `log_ps.topk(1, dim=1)`), is a deterministic arg-max: on
a non-empty row it returns an in-range index whose entry is at least every
entry of the row, and every strictly earlier index holds a strictly
smaller entry, so ties are broken towards the first index attaining the
maximum. -/
theorem topClass_first_argmax (l : Vec) (hl : l ≠ []) :
    topClass l < l.length ∧
    (∀ j, j < l.length → l.getD j 0 ≤ l.getD (topClass l) 0) ∧
    (∀ j, j < topClass l → l.getD j 0 < l.getD (topClass l) 0) := by
  cases l with
  | nil => exact absurd rfl hl
  | cons x t =>
    have hle : ∀ j, j < 1 → (x :: t).getD j 0 ≤ x := by
      intro j hj
      interval_cases j
      simp
    have hlt : ∀ j, j < 0 → (x :: t).getD j 0 < x :=
      fun j hj => absurd hj (Nat.not_lt_zero j)
    have hsuf : ∀ k, k < t.length → t.getD k 0 = (x :: t).getD (1 + k) 0 := by
      intro k hk
      rw [Nat.add_comm]
      simp
    have h := argmaxAux_spec (x :: t) t 1 0 x (by simp [Nat.add_comm]) Nat.zero_lt_one
      (by simp) hsuf hle hlt
    simpa [topClass] using h

/-- C8 witness: on the concrete row [3, 5, 5] the theorem applies; its
first-index arg-max is index 1 (the earlier of the two tied maxima). -/
theorem topClass_first_argmax_witness :
    (([(3 : ℝ), 5, 5] : Vec) ≠ []) ∧
    (topClass [(3 : ℝ), 5, 5] < ([(3 : ℝ), 5, 5] : Vec).length ∧
     (∀ j, j < ([(3 : ℝ), 5, 5] : Vec).length →
       ([(3 : ℝ), 5, 5] : Vec).getD j 0
         ≤ ([(3 : ℝ), 5, 5] : Vec).getD (topClass [(3 : ℝ), 5, 5]) 0) ∧
     (∀ j, j < topClass [(3 : ℝ), 5, 5] →
       ([(3 : ℝ), 5, 5] : Vec).getD j 0
         < ([(3 : ℝ), 5, 5] : Vec).getD (topClass [(3 : ℝ), 5, 5]) 0)) :=
  ⟨by simp, topClass_first_argmax [(3 : ℝ), 5, 5] (by simp)⟩

/-- C9: because neither batch loop contains a `break`, each `for/else`
construct of the two train/validate loops is equivalent to the same loop
with the `else` code run unconditionally after it: the whole epoch — final
parameters, training flag, all metric values, and the emitted report list
— is identical under the two readings. -/
theorem for_else_equiv_unconditional (updD updB : Params → Batch → Params)
    (trainD trainB : List (Batch × Noise)) (val : List Batch) (nSamples : ℕ)
    (st0 st1 : LoopSt) :
    dropoutEpoch updD trainD val nSamples st0
      = dropoutEpochSeq updD trainD val nSamples st0 ∧
    baselineEpoch updB trainB val nSamples st1
      = baselineEpochSeq updB trainB val nSamples st1 :=
  ⟨dropoutEpoch_seq updD trainD val nSamples st0,
   baselineEpoch_seq updB trainB val nSamples st1⟩

/-- C2: with the documented layer shapes (fc4 is a 64-to-10 affine layer,
so its weight matrix has 10 rows and its bias 10 entries), both forward
passes — the baseline one and the dropout one in either mode — map a batch
of B rows to exactly B output rows of 10 entries each, and the
exponentials of each output row sum to 1. -/
theorem forward_rows_are_log_probabilities (m : Params) (x : Mat)
    (training : Bool) (noise : Noise)
    (hw : m.w4.length = 10) (hb : m.b4.length = 10) (hB : 1 ≤ x.length) :
    (Classifier.forward m x).length = x.length ∧
    (∀ row ∈ Classifier.forward m x,
      row.length = 10 ∧ (row.map Real.exp).sum = 1) ∧
    (ClassifierDrop.forward m training noise x).length = x.length ∧
    (∀ row ∈ ClassifierDrop.forward m training noise x,
      row.length = 10 ∧ (row.map Real.exp).sum = 1) := by
  have key : ∀ v : Vec, (logSoftmax (affine m.w4 m.b4 v)).length = 10 ∧
      ((logSoftmax (affine m.w4 m.b4 v)).map Real.exp).sum = 1 := by
    intro v
    have hz : (affine m.w4 m.b4 v).length = 10 := by
      rw [affine_length, hw, hb]
      simp
    have hnil : affine m.w4 m.b4 v ≠ [] := by
      apply List.ne_nil_of_length_pos
      omega
    exact ⟨by rw [logSoftmax_length, hz], logSoftmax_expSum _ hnil⟩
  refine ⟨forward_base_length m x, ?_, forward_drop_length m training noise x, ?_⟩
  · intro row hrow
    obtain ⟨v, rfl⟩ := mem_forward_base m x row hrow
    exact key v
  · intro row hrow
    obtain ⟨v, rfl⟩ := mem_forward_drop m training noise x row hrow
    exact key v

/-- C2 witness: the theorem applied to concrete parameters with a
10-row output layer and a concrete one-row batch. -/
theorem forward_rows_are_log_probabilities_witness :
    (wParams.w4.length = 10 ∧ wParams.b4.length = 10 ∧
      1 ≤ ([[(0 : ℝ)]] : Mat).length) ∧
    ((Classifier.forward wParams [[(0 : ℝ)]]).length = ([[(0 : ℝ)]] : Mat).length ∧
     (∀ row ∈ Classifier.forward wParams [[(0 : ℝ)]],
       row.length = 10 ∧ (row.map Real.exp).sum = 1) ∧
     (ClassifierDrop.forward wParams false (fun _ _ _ => true) [[(0 : ℝ)]]).length
       = ([[(0 : ℝ)]] : Mat).length ∧
     (∀ row ∈ ClassifierDrop.forward wParams false (fun _ _ _ => true) [[(0 : ℝ)]],
       row.length = 10 ∧ (row.map Real.exp).sum = 1)) :=
  ⟨⟨rfl, rfl, by norm_num⟩,
   forward_rows_are_log_probabilities wParams [[(0 : ℝ)]] false (fun _ _ _ => true)
     rfl rfl (by norm_num)⟩

/-- C10: the forward pass flattens its own input with a batch-preserving
reshape, so on a B x C x H x W input whose samples flatten to 784 entries
it produces exactly the output of the B x 784 pre-flattened input, and the
flattened rows indeed have 784 entries — the caller need not flatten. -/
theorem forward_flattens_input (m : Params) (x : List (List Mat))
    (hx : ∀ s ∈ x, s.flatten.flatten.length = 784) :
    Classifier.forward4 m x = Classifier.forward m (view4 x) ∧
    ∀ r ∈ view4 x, r.length = 784 := by
  refine ⟨rfl, ?_⟩
  intro r hr
  obtain ⟨s, hs, rfl⟩ := List.mem_map.1 hr
  exact hx s hs

/-- C10 witness: the theorem applied to a concrete batch holding one
1 x 28 x 28 sample. -/
theorem forward_flattens_input_witness :
    (∀ s ∈ wImg4, s.flatten.flatten.length = 784) ∧
    (Classifier.forward4 wParams wImg4 = Classifier.forward wParams (view4 wImg4) ∧
     ∀ r ∈ view4 wImg4, r.length = 784) := by
  have hx : ∀ s ∈ wImg4, s.flatten.flatten.length = 784 := by
    intro s hs
    have hs2 : s = [List.replicate 28 (List.replicate 28 (0 : ℝ))] := by
      simpa [wImg4] using hs
    subst hs2
    have hflat : ([List.replicate 28 (List.replicate 28 (0 : ℝ))] : List Mat).flatten
        = List.replicate 28 (List.replicate 28 (0 : ℝ)) := by
      simp
    rw [hflat, List.length_flatten, List.map_replicate, List.length_replicate,
      List.sum_replicate, smul_eq_mul]
  exact ⟨hx, forward_flattens_input wParams wImg4 hx⟩

/-- C4: for an epoch of either train/validate loop — the dropout variant
on state `st0`, the baseline on state `st1` — run on arbitrary incoming
state (so in particular with dirty metric accumulators: the code resets
them, which is why the reported values below do not depend on the metric
fields of `st0`/`st1`), the reported mean training loss is the accumulated
per-batch training loss divided by the number of training batches, the
reported mean validation loss is the accumulated validation loss divided
by the number of validation batches, and the reported accuracy is the
accumulated correct top-1 count divided by the number `N` of held-out
samples; the accuracy lies in [0, 1] and equals 1 only if every sample's
top-1 prediction equals its true label. -/
theorem epoch_metrics_normalization (upd updB : Params → Batch → Params)
    (train trainB : List (Batch × Noise)) (val : List Batch) (N : ℕ)
    (st0 st1 : LoopSt)
    (hN : N = (val.map (fun b => b.labels.length)).sum)
    (hlen : ∀ b ∈ val, b.images.length = b.labels.length)
    (hNpos : 0 < N) :
    ((dropoutEpoch upd train val N st0).running_loss
      = (lossesAlong ClassifierDrop.forward upd true st0.params train).sum
        / train.length ∧
    (dropoutEpoch upd train val N st0).testing_loss
      = (val.map (valLossOf ClassifierDrop.forward
          (trainedFrom upd st0.params train) false)).sum / val.length ∧
    (dropoutEpoch upd train val N st0).accuracy
      = (val.map (correctOf ClassifierDrop.forward
          (trainedFrom upd st0.params train) false)).sum / N ∧
    0 ≤ (dropoutEpoch upd train val N st0).accuracy ∧
    (dropoutEpoch upd train val N st0).accuracy ≤ 1 ∧
    ((dropoutEpoch upd train val N st0).accuracy = 1 →
      ∀ b ∈ val, ∀ i, i < b.labels.length →
        topClass ((ClassifierDrop.forward (trainedFrom upd st0.params train) false
          (fun _ _ _ => true) b.images).getD i [])
          = b.labels.getD i 0)) ∧
    ((baselineEpoch updB trainB val N st1).running_loss
      = (lossesAlong baselineFwd updB st1.training st1.params trainB).sum
        / trainB.length ∧
    (baselineEpoch updB trainB val N st1).testing_loss
      = (val.map (valLossOf baselineFwd
          (trainedFrom updB st1.params trainB) st1.training)).sum / val.length ∧
    (baselineEpoch updB trainB val N st1).accuracy
      = (val.map (correctOf baselineFwd
          (trainedFrom updB st1.params trainB) st1.training)).sum / N ∧
    0 ≤ (baselineEpoch updB trainB val N st1).accuracy ∧
    (baselineEpoch updB trainB val N st1).accuracy ≤ 1 ∧
    ((baselineEpoch updB trainB val N st1).accuracy = 1 →
      ∀ b ∈ val, ∀ i, i < b.labels.length →
        topClass ((baselineFwd (trainedFrom updB st1.params trainB) st1.training
          (fun _ _ _ => true) b.images).getD i [])
          = b.labels.getD i 0)) := by
  obtain ⟨d1, d2, d3⟩ := accuracy_analysis ClassifierDrop.forward false
    (trainedFrom upd st0.params train) val N
    (fun pp t n x => forward_drop_length pp t n x) hN hlen hNpos
  obtain ⟨b1, b2, b3⟩ := accuracy_analysis baselineFwd st1.training
    (trainedFrom updB st1.params trainB) val N
    (fun pp t n x => forward_base_length pp x) hN hlen hNpos
  simp only [dropoutEpoch_closed, baselineEpoch_closed]
  exact ⟨⟨trivial, trivial, trivial, d1, d2, d3⟩,
    ⟨trivial, trivial, trivial, b1, b2, b3⟩⟩

/-- C4 witness: the theorem applied, for both loops, to an empty training
pass and a single one-sample validation batch (one pixel, label 0) with
`N = 1`. -/
theorem epoch_metrics_normalization_witness :
    ((1 : ℕ) = ([wBatch].map (fun b => b.labels.length)).sum ∧
     (∀ b ∈ [wBatch], b.images.length = b.labels.length) ∧
     0 < 1) ∧
    (((dropoutEpoch (fun p _ => p) [] [wBatch] 1 wSt).running_loss
      = (lossesAlong ClassifierDrop.forward (fun p _ => p) true wSt.params []).sum
        / ([] : List (Batch × Noise)).length ∧
    (dropoutEpoch (fun p _ => p) [] [wBatch] 1 wSt).testing_loss
      = ([wBatch].map (valLossOf ClassifierDrop.forward
          (trainedFrom (fun p _ => p) wSt.params []) false)).sum / ([wBatch] : List Batch).length ∧
    (dropoutEpoch (fun p _ => p) [] [wBatch] 1 wSt).accuracy
      = ([wBatch].map (correctOf ClassifierDrop.forward
          (trainedFrom (fun p _ => p) wSt.params []) false)).sum / (1 : ℕ) ∧
    0 ≤ (dropoutEpoch (fun p _ => p) [] [wBatch] 1 wSt).accuracy ∧
    (dropoutEpoch (fun p _ => p) [] [wBatch] 1 wSt).accuracy ≤ 1 ∧
    ((dropoutEpoch (fun p _ => p) [] [wBatch] 1 wSt).accuracy = 1 →
      ∀ b ∈ [wBatch], ∀ i, i < b.labels.length →
        topClass ((ClassifierDrop.forward (trainedFrom (fun p _ => p) wSt.params []) false
          (fun _ _ _ => true) b.images).getD i [])
          = b.labels.getD i 0)) ∧
    ((baselineEpoch (fun p _ => p) [] [wBatch] 1 wSt).running_loss
      = (lossesAlong baselineFwd (fun p _ => p) wSt.training wSt.params []).sum
        / ([] : List (Batch × Noise)).length ∧
    (baselineEpoch (fun p _ => p) [] [wBatch] 1 wSt).testing_loss
      = ([wBatch].map (valLossOf baselineFwd
          (trainedFrom (fun p _ => p) wSt.params []) wSt.training)).sum
        / ([wBatch] : List Batch).length ∧
    (baselineEpoch (fun p _ => p) [] [wBatch] 1 wSt).accuracy
      = ([wBatch].map (correctOf baselineFwd
          (trainedFrom (fun p _ => p) wSt.params []) wSt.training)).sum / (1 : ℕ) ∧
    0 ≤ (baselineEpoch (fun p _ => p) [] [wBatch] 1 wSt).accuracy ∧
    (baselineEpoch (fun p _ => p) [] [wBatch] 1 wSt).accuracy ≤ 1 ∧
    ((baselineEpoch (fun p _ => p) [] [wBatch] 1 wSt).accuracy = 1 →
      ∀ b ∈ [wBatch], ∀ i, i < b.labels.length →
        topClass ((baselineFwd (trainedFrom (fun p _ => p) wSt.params []) wSt.training
          (fun _ _ _ => true) b.images).getD i [])
          = b.labels.getD i 0))) :=
  ⟨⟨by simp [wBatch], by simp [wBatch], by norm_num⟩,
   epoch_metrics_normalization (fun p _ => p) (fun p _ => p) [] [] [wBatch] 1 wSt wSt
     (by simp [wBatch]) (by simp [wBatch]) (by norm_num)⟩

end Part5
